import Mathlib

/-!
Verification development for the sagittal-focusing verification engine of
`mretegan/xraysloth` (file `examples/rowland_sagittal_tests.py`,
class `TestSagittalFocusing`).

The development embeds, faithfully to the Python source:

* the streaming parser `read_data` (flush-on-next-row state machine over
  comma-separated records) as a fold over an explicit record stream;
* the accessor `get_dats` (sorted per-run position listing);
* the geometry helpers `get_intersect_lines`, `get_circle_radius`,
  `get_intersect_angle`, `get_sag_plane_dist`, and the evaluation pipeline
  steps of `eval_data_th0s` and `eval_data_rs`.

Numbers held by the Python code are modelled as follows: exact rationals
(`ℚ`) for the parsed actuator positions (which serve as dictionary keys and
sort keys), integers (`ℤ`) for the angle and run fields, and real numbers
(`ℝ`) for the 3-D geometry.  The measurement payload carried through the
parser is a type parameter `α`, since `read_data` never inspects the
coordinate triples it stores.
-/

/-- One record (line) of the measurement stream consumed by `read_data`.
`comment` is a line whose first field starts with `#` (skipped by the
parser); `good` is a data row whose fields
`(collection, angle, run, actuator_position, point_index, x, y, z)` all
parse, carrying the parsed payload `v : α` for the coordinate triple;
`bad` is a row that fails while the integer/float header fields
`int(row[1]), int(row[2]), float(row[3]), int(row[4])` are parsed (for
example a non-numeric actuator-position field, or an `IndexError` on a
row too short to have those fields), before any state is touched;
`badXyz` is a row whose header fields parse but whose coordinate slice
`list(map(float, row[-3:]))` fails to parse (a non-numeric coordinate
field): the `_ptx` flush of the previous position has already executed
when the exception fires.  Both error rows carry the raw row text that
the error report cites; `badXyz` does not record its parsed header
values because the source discards them before the failure (the flush
reads only `_bpos`, `_pts`, `_apos`).  A wrong-field-count row whose
available fields are all numeric raises nothing at all (`row[-3:]` just
takes the last three fields) and is therefore a `good` row of this
model, not an error row. -/
inductive Row (α : Type) where
  | comment : Row α
  | good (ang run : ℤ) (pos : ℚ) (pt : ℕ) (v : α) : Row α
  | bad (raw : String) : Row α
  | badXyz (raw : String) : Row α

/-- The mutable state of `read_data`'s loop: the point buffer `_pts`, the
position map `_apos`, the run map `_runs`, the angle map `angs`, the
pending position value `_bpos`, the position-complete flag `_ptx`, the
current run `_rnx` and angle `_angx` keys, and the reported error (the
printed `ERROR reading line {irow+1}: {row}` message), if any.  Python
dictionaries are modelled as insertion-ordered association lists.  The
row-local `_frun` flag is not part of the state: it is set to `True` at
the top of every iteration and read in the same iteration, so it is
reconstructed locally in `rstep`. -/
structure RState (α : Type) where
  pts : List α
  apos : List (ℚ × List α)
  runs : List (ℤ × List (ℚ × List α))
  angs : List (ℤ × List (ℤ × List (ℚ × List α)))
  bpos : ℚ
  ptx : Bool
  rnx : ℤ
  angx : ℤ
  err : Option (ℕ × String)

/-- `d[k] = v` on a Python (insertion-ordered) dictionary: update in place
if the key is present, append otherwise. -/
def dinsert {κ β : Type} [DecidableEq κ] (k : κ) (v : β) : List (κ × β) → List (κ × β)
  | [] => [(k, v)]
  | (k', v') :: t => if k' = k then (k, v) :: t else (k', v') :: dinsert k v t

/-- Python `d[k]` lookup (first, hence unique, binding of `k`). -/
def dget {κ β : Type} [DecidableEq κ] (k : κ) : List (κ × β) → Option β
  | [] => none
  | (k', v') :: t => if k' = k then some v' else dget k t

/-- The initial loop state of `read_data`: `_pts = np.zeros(pts_shape)`,
empty maps, `_bpos = 0`, `_ptx = False`, `_rnx = 0`, `_angx = 0`.  The
zero payload `z0` stands for one all-zeros row of the `np.zeros` buffer;
`n = pts_shape[0]`. -/
def initState {α : Type} (n : ℕ) (z0 : α) : RState α :=
  ⟨List.replicate n z0, [], [], [], 0, false, 0, 0, none⟩

/-- One iteration of the `read_data` loop on row number `i`
(0-based, as produced by `enumerate`).  Mirrors the source line by line:
comment rows are skipped; a row failing header-field parsing prints the
error citing line `i+1` and the raw row, and stops ingestion with no
other state change; a row failing at the coordinate slice first performs
the `_ptx` flush (storing the pending buffer under `str(_bpos)` and
resetting the buffer — the assignment `_pts[pt] = ...` never executes
because its right-hand side raises), then stops with the same report; a
good row first flushes the previous position when `_ptx` is set, then
writes the payload at `pt` (a `pt` outside the buffer raises
`IndexError`, which the same `except` catches), then records completion
when `pt == n-1`, then flushes positions on a run change, and finally
flushes runs on an angle change (with the `_frun` flag suppressing a
double flush when the run already changed in this same row). -/
def rstep {α : Type} (n : ℕ) (z0 : α) (i : ℕ) (s : RState α) : Row α → RState α
  | .comment => s
  | .bad raw => { s with err := some (i + 1, raw) }
  | .badXyz raw =>
    let s1 := if s.ptx then
        { s with apos := dinsert s.bpos s.pts s.apos, ptx := false,
                 pts := List.replicate n z0 }
      else s
    { s1 with err := some (i + 1, raw) }
  | .good ang run pos pt v =>
    let s1 := if s.ptx then
        { s with apos := dinsert s.bpos s.pts s.apos, ptx := false,
                 pts := List.replicate n z0 }
      else s
    if pt < n then
      let s2 := { s1 with pts := s1.pts.set pt v }
      let s3 := if pt = n - 1 then { s2 with bpos := pos, ptx := true } else s2
      let s4 := if run ≠ s.rnx then
          { s3 with runs := dinsert s.rnx s3.apos s3.runs, rnx := run, apos := [] }
        else s3
      if ang ≠ s.angx then
        let s5 := if run ≠ s.rnx then s4
          else { s4 with runs := dinsert s.rnx s4.apos s4.runs, apos := [] }
        { s5 with angs := dinsert s.angx s5.runs s5.angs, angx := ang, rnx := 0,
                  runs := [] }
      else s4
    else { s1 with err := some (i + 1, "IndexError") }

/-- The `read_data` loop over the remaining rows, starting at row number
`i`.  Once an error has been recorded the loop has broken: no further row
is processed. -/
def rrun {α : Type} (n : ℕ) (z0 : α) : ℕ → RState α → List (Row α) → RState α
  | _, s, [] => s
  | i, s, r :: rs => if s.err.isSome then s else rrun n z0 (i + 1) (rstep n z0 i s r) rs

/-- The unconditional final flush of `read_data`
(`_apos[str(_bpos)] = _pts; _runs[_rnx] = _apos; angs[_angx] = _runs`),
performed after the loop regardless of completion flags. -/
def finalFlush {α : Type} (s : RState α) : List (ℤ × List (ℤ × List (ℚ × List α))) :=
  dinsert s.angx (dinsert s.rnx (dinsert s.bpos s.pts s.apos) s.runs) s.angs

/-- `read_data`: ingest the stream and return the angle map, together with
the error report (the message printed by the `except` branch), if any.
The Python function returns only the angle map; the report goes to
standard output, which the second component models. -/
def read_data {α : Type} (n : ℕ) (z0 : α) (rows : List (Row α)) :
    List (ℤ × List (ℤ × List (ℚ × List α))) × Option (ℕ × String) :=
  let s := rrun n z0 0 (initState n z0) rows
  (finalFlush s, s.err)

/-- Result of `get_dats`: either the two-element list `[_pos, _pts]`
returned when the requested position is matched, or the accumulated
(sorted) list of `(position, points)` pairs. -/
inductive DatsResult (α : Type) where
  | found (pos : ℚ) (pts : List α) : DatsResult α
  | items (l : List (ℚ × List α)) : DatsResult α
deriving DecidableEq

/-- Comparison used by `_retlist.sort()`: Python sorts the accumulated
`(float, ndarray)` tuples, which compares the position floats first (the
stored positions are pairwise distinct dictionary keys, so the array
components are never compared). -/
def keyLe {α : Type} (x y : ℚ × List α) : Prop := x.1 ≤ y.1

instance {α : Type} : DecidableRel (keyLe (α := α)) :=
  fun x y => inferInstanceAs (Decidable (x.1 ≤ y.1))

instance {α : Type} : IsTotal (ℚ × List α) keyLe := ⟨fun x y => le_total x.1 y.1⟩

instance {α : Type} : IsTrans (ℚ × List α) keyLe := ⟨fun _ _ _ h1 h2 => le_trans h1 h2⟩

/-- The accumulation loop of `get_dats`: on a position match return
`[_pos, _pts]` and stop; otherwise append the pair and re-sort the
accumulator. -/
def gdLoop {α : Type} (pos : Option ℚ) : List (ℚ × List α) → List (ℚ × List α) → DatsResult α
  | acc, [] => .items acc
  | acc, (p, pts) :: t =>
    if some p = pos then .found p pts
    else gdLoop pos (List.insertionSort keyLe (acc ++ [(p, pts)])) t

/-- `get_dats`: look up `dats[ang][run]` (raising `NameError` when absent,
modelled by `Except.error`) and run the accumulation loop over its items. -/
def get_dats {α : Type} (dats : List (ℤ × List (ℤ × List (ℚ × List α))))
    (ang run : ℤ) (pos : Option ℚ) : Except String (DatsResult α) :=
  match dget ang dats with
  | none => .error "not found"
  | some rs =>
    match dget run rs with
    | none => .error "not found"
    | some d => .ok (gdLoop pos [] d)

/-!
## Synthetic well-formed streams

A well-formed stream (spec §8, "Round-trip") is the concatenation, for
angles `0..A-1`, runs `0..R-1` and positions `0..P-1`, of complete
position groups: `n` data rows with point indices `0..n-1` in order,
constant angle/run/position fields.  `q a r i` is the actuator position of
the `i`-th group of run `r` at angle `a`; `g a r i k` is the payload of
its `k`-th point row.
-/

/-- Rows of one position group with point indices `a, a+1, ..., a+k-1`. -/
def grAux {α : Type} (ang run : ℤ) (pos : ℚ) (g : ℕ → α) : ℕ → ℕ → List (Row α)
  | _, 0 => []
  | a, k + 1 => .good ang run pos a (g a) :: grAux ang run pos g (a + 1) k

/-- One complete position group: point rows `0..n-1`. -/
def groupRows {α : Type} (ang run : ℤ) (pos : ℚ) (g : ℕ → α) (n : ℕ) : List (Row α) :=
  grAux ang run pos g 0 n

/-- Groups `j, j+1, ..., j+k-1` of one run. -/
def runGroups {α : Type} (ang run : ℤ) (q : ℕ → ℚ) (g : ℕ → ℕ → α) (n : ℕ) :
    ℕ → ℕ → List (Row α)
  | _, 0 => []
  | j, k + 1 => groupRows ang run (q j) (g j) n ++ runGroups ang run q g n (j + 1) k

/-- Runs `r, r+1, ..., r+k-1` of one angle, each with `P` groups. -/
def angRuns {α : Type} (ang : ℤ) (q : ℕ → ℕ → ℚ) (g : ℕ → ℕ → ℕ → α) (P n : ℕ) :
    ℕ → ℕ → List (Row α)
  | _, 0 => []
  | r, k + 1 => runGroups ang (r : ℤ) (q r) (g r) n 0 P ++ angRuns ang q g P n (r + 1) k

/-- Angles `a, a+1, ..., a+k-1` of the stream, each with `R` runs. -/
def streamAngs {α : Type} (q : ℕ → ℕ → ℕ → ℚ) (g : ℕ → ℕ → ℕ → ℕ → α) (R P n : ℕ) :
    ℕ → ℕ → List (Row α)
  | _, 0 => []
  | a, k + 1 => angRuns (a : ℤ) (q a) (g a) P n 0 R ++ streamAngs q g R P n (a + 1) k

/-- The full synthetic stream: `A` angles × `R` runs × `P` positions × `n`
points per position. -/
def streamRows {α : Type} (q : ℕ → ℕ → ℕ → ℚ) (g : ℕ → ℕ → ℕ → ℕ → α) (A R P n : ℕ) :
    List (Row α) :=
  streamAngs q g R P n 0 A

/-- Write `g a, g (a+1), ..., g (a+k-1)` into the buffer at indices
`a..a+k-1` (the successive `_pts[pt] = ...` assignments of one group). -/
def writeFrom {α : Type} (l : List α) (g : ℕ → α) : ℕ → ℕ → List α
  | _, 0 => l
  | a, k + 1 => writeFrom (l.set a (g a)) g (a + 1) k

/-- The buffer left by one complete position group: a fresh `np.zeros`
buffer with all `n` point rows written. -/
def bufOf {α : Type} (z0 : α) (g : ℕ → α) (n : ℕ) : List α :=
  writeFrom (List.replicate n z0) g 0 n

/-- The position map holding groups `j..j+k-1`, keyed by position value. -/
def flushList {α : Type} (q : ℕ → ℚ) (b : ℕ → List α) : ℕ → ℕ → List (ℚ × List α)
  | _, 0 => []
  | j, k + 1 => (q j, b j) :: flushList q b (j + 1) k

/-- An association list with integer keys `j..j+k-1`. -/
def zList {β : Type} (v : ℕ → β) : ℕ → ℕ → List (ℤ × β)
  | _, 0 => []
  | j, k + 1 => ((j : ℤ), v j) :: zList v (j + 1) k

/-- The fully parsed position map of run `(a, r)`. -/
def aposFull {α : Type} (z0 : α) (q : ℕ → ℚ) (g : ℕ → ℕ → α) (P n : ℕ) :
    List (ℚ × List α) :=
  flushList q (fun i => bufOf z0 (g i) n) 0 P

/-- The fully parsed run map of one angle. -/
def runsFull {α : Type} (z0 : α) (q : ℕ → ℕ → ℚ) (g : ℕ → ℕ → ℕ → α) (R P n : ℕ) :
    List (ℤ × List (ℚ × List α)) :=
  zList (fun r => aposFull z0 (q r) (g r) P n) 0 R

/-- The dataset expected from ingesting `streamRows q g A R P n`. -/
def angsFull {α : Type} (z0 : α) (q : ℕ → ℕ → ℕ → ℚ) (g : ℕ → ℕ → ℕ → ℕ → α)
    (A R P n : ℕ) : List (ℤ × List (ℤ × List (ℚ × List α))) :=
  zList (fun a => runsFull z0 (q a) (g a) R P n) 0 A

/-- The loop state while inside one run, after its position groups
`0..l` have been fully read: groups `0..l-1` are flushed into the
position map, group `l` is pending in the buffer. -/
def midRun {α : Type} (base : RState α) (q1 : ℕ → ℚ) (b1 : ℕ → List α) (l : ℕ) :
    RState α :=
  { base with pts := b1 l, apos := flushList q1 b1 0 l, bpos := q1 l, ptx := true }

/-- The loop state while inside one angle, after its runs `0..r` have been
fully read (each with `p+1` position groups): runs `0..r-1` are flushed
into the run map, run `r`'s first `p` groups are in the position map and
its last group is pending in the buffer. -/
def midAng {α : Type} (base : RState α) (z0 : α) (qa : ℕ → ℕ → ℚ)
    (ga : ℕ → ℕ → ℕ → α) (p n r : ℕ) : RState α :=
  { base with
    runs := zList (fun r' => flushList (qa r')
      (fun j => bufOf z0 (ga r' j) n) 0 (p + 1)) 0 r,
    rnx := (r : ℤ),
    pts := bufOf z0 (ga r p) n,
    apos := flushList (qa r) (fun j => bufOf z0 (ga r j) n) 0 p,
    bpos := qa r p, ptx := true }

/-- The base state at the start of angle `a`: angles `0..a-1` flushed into
the angle map, run/position state freshly reset.  (The buffer, pending
position and position-map fields are placeholders: every use overwrites
them through `midAng`/`midRun`.) -/
def strBase {α : Type} (z0 : α) (q : ℕ → ℕ → ℕ → ℚ) (g : ℕ → ℕ → ℕ → ℕ → α)
    (n p u a : ℕ) : RState α :=
  { pts := ([] : List α), apos := [], runs := [],
    angs := zList (fun a' => zList (fun r' => flushList (q a' r')
      (fun j => bufOf z0 (g a' r' j) n) 0 (p + 1)) 0 (u + 1)) 0 a,
    bpos := 0, ptx := false, rnx := 0, angx := (a : ℤ), err := none }

/-- The loop state after angles `0..a` have been fully read (each with
`u+1` runs of `p+1` position groups): angles `0..a-1` are flushed into the
angle map, and the last run of angle `a` is mid-flight as in `midAng`. -/
def midStr {α : Type} (z0 : α) (q : ℕ → ℕ → ℕ → ℚ) (g : ℕ → ℕ → ℕ → ℕ → α)
    (n p u a : ℕ) : RState α :=
  midAng (strBase z0 q g n p u a) z0 (q a) (g a) p n u

/-- Position values for the C2 witness stream. -/
def qW : ℕ → ℕ → ℕ → ℚ := fun _ _ i => (i : ℚ)

/-- Point payloads for the C2 witness stream. -/
def gW : ℕ → ℕ → ℕ → ℕ → ℕ := fun _ _ _ k => k

/-- The position map of the C10 witness: two positions, out of order. -/
def dW : List (ℚ × List ℕ) := [(2, [5]), (1, [7])]

/-!
## Geometry kernel

Points are real triples; a sagittal plane is `Ax + By + Cz + D = 0` stored
as the 4-vector `(A, B, C, D)` (`self.sp`), as built by `set_sag_plane`.
-/

/-- A 3-D point `(x, y, z)`. -/
structure P3 where
  x : ℝ
  y : ℝ
  z : ℝ

/-- A plane `Ax + By + Cz + D = 0`, stored as `np.array([A, B, C, D])`. -/
structure SagPlane where
  a : ℝ
  b : ℝ
  c : ℝ
  d : ℝ

/-- Modelled from the spec: `point_on_plane_projection` is imported from
`sloth.math.geometry3D`, which is not among the provided sources.  Per the
spec (§4.2) it is the orthogonal projection of the point onto the plane,
`proj_pt = point - norm * offset` (docstring of `get_projection_point`),
exact for any non-degenerate plane normal, so the offset is
`(P·norm + D) / (norm·norm)`. -/
noncomputable def point_on_plane_projection (p : P3) (sp : SagPlane) : P3 :=
  let off := (p.x * sp.a + p.y * sp.b + p.z * sp.c + sp.d) /
    (sp.a ^ 2 + sp.b ^ 2 + sp.c ^ 2)
  ⟨p.x - sp.a * off, p.y - sp.b * off, p.z - sp.c * off⟩

/-- `get_intersect_lines(p10, p11, p20, p21)`:
`t = (p20 - p10) / (p11 - p10 - p21 + p20)` and the returned point is
`p10 + t * (p11 - p10)`.  The arithmetic is NumPy elementwise arithmetic
on 3-vectors: each coordinate gets its own quotient `t`. -/
noncomputable def get_intersect_lines (p10 p11 p20 p21 : P3) : P3 :=
  ⟨p10.x + (p20.x - p10.x) / (p11.x - p10.x - p21.x + p20.x) * (p11.x - p10.x),
   p10.y + (p20.y - p10.y) / (p11.y - p10.y - p21.y + p20.y) * (p11.y - p10.y),
   p10.z + (p20.z - p10.z) / (p11.z - p10.z - p21.z + p20.z) * (p11.z - p10.z)⟩

/-- `get_circle_radius(point, center)`: the full 3-D Euclidean distance
`sqrt((x-x0)^2 + (y-y0)^2 + (z-z0)^2)`. -/
noncomputable def get_circle_radius (point center : P3) : ℝ :=
  Real.sqrt ((point.x - center.x) ^ 2 + (point.y - center.y) ^ 2 +
    (point.z - center.z) ^ 2)

/-- `get_intersect_angle(p0, p1, p2)`: the angle at `p0` between `p1` and
`p2`, `degrees(acos(u·v / sqrt((u·u)(v·v))))`. -/
noncomputable def get_intersect_angle (p0 p1 p2 : P3) : ℝ :=
  let ux := p1.x - p0.x
  let uy := p1.y - p0.y
  let uz := p1.z - p0.z
  let vx := p2.x - p0.x
  let vy := p2.y - p0.y
  let vz := p2.z - p0.z
  Real.arccos ((ux * vx + uy * vy + uz * vz) /
    Real.sqrt ((ux ^ 2 + uy ^ 2 + uz ^ 2) * (vx ^ 2 + vy ^ 2 + vz ^ 2))) * 180 / Real.pi

/-- `math.degrees`. -/
noncomputable def degrees (x : ℝ) : ℝ := x * 180 / Real.pi

/-- `get_sag_plane_dist(P)`: with no configured plane (`self.sp is None`)
the method prints `ERROR: sagittal plane not setted yet!` and returns `0`;
otherwise it returns
`abs(P·(A,B,C) + D) / sqrt(sp.dot(sp))` — note that `sp` is the full
4-vector, so the divisor is `sqrt(A^2+B^2+C^2+D^2)`.  The boolean
component records whether the ERROR message was printed. -/
noncomputable def get_sag_plane_dist (sp : Option SagPlane) (p : P3) : Bool × ℝ :=
  match sp with
  | none => (true, 0)
  | some sp =>
    (false, |p.x * sp.a + p.y * sp.b + p.z * sp.c + sp.d| /
      Real.sqrt (sp.a ^ 2 + sp.b ^ 2 + sp.c ^ 2 + sp.d ^ 2))

/-- A point on the line through `p` and `q`, at parameter `t` of the
parameterization `p + t * (q - p)` used by `get_intersect_lines`. -/
noncomputable def linePt (p q : P3) (t : ℝ) : P3 :=
  ⟨p.x + t * (q.x - p.x), p.y + t * (q.y - p.y), p.z + t * (q.z - p.z)⟩

/-- The per-position tilt computed inside the `eval_data_th0s` loop:
`beta = atan((z0 - z6)/(y6 - y0))`, `th0 = degrees(pi/2 - beta)`, from the
front-ring centre point `_pts[0]` and its back-ring counterpart `_pts[6]`. -/
noncomputable def th0_of (pts : List P3) : ℝ :=
  let p0 := pts.getD 0 ⟨0, 0, 0⟩
  let p6 := pts.getD 6 ⟨0, 0, 0⟩
  degrees (Real.pi / 2 - Real.arctan ((p0.z - p6.z) / (p6.y - p0.y)))

/-- The list of per-position tilts produced by the `eval_data_th0s` loop
over the `(position, points)` pairs returned by `get_dats`. -/
noncomputable def eval_data_th0s (dats : List (ℚ × List P3)) : List ℝ :=
  dats.map (fun pr => th0_of pr.2)

/-- The per-position body of `eval_data_rs`: project the 12 measurement
points onto the plane, take the centre as
`get_intersect_lines(pj[0], pj[6], pj[5], pj[11])`, the 12 radii as
`get_circle_radius(_pts[idx], cen)` on the unprojected points, and the 10
chi values as `get_intersect_angle(cen, pj[idx], pj[idx+1])` for
`idx = 0..4` and `idx = 6..10`. -/
noncomputable def eval_rs_point (sp : SagPlane) (pts : Fin 12 → P3) :
    P3 × (Fin 12 → ℝ) × (Fin 10 → ℝ) :=
  let pj := fun i : Fin 12 => point_on_plane_projection (pts i) sp
  let cen := get_intersect_lines (pj 0) (pj 6) (pj 5) (pj 11)
  let rs := fun i : Fin 12 => get_circle_radius (pts i) cen
  let chi := fun i : Fin 10 =>
    if h : i.val < 5 then
      get_intersect_angle cen (pj ⟨i.val, by omega⟩) (pj ⟨i.val + 1, by omega⟩)
    else
      get_intersect_angle cen (pj ⟨i.val + 1, by omega⟩) (pj ⟨i.val + 2, by omega⟩)
  (cen, rs, chi)

/-!
## NumPy float semantics for the vertical-chord case

The coordinates handled by `eval_data_th0s` are `numpy.float64` scalars
read back from the `np.zeros` buffer.  For these, division by zero does
not raise `ZeroDivisionError`: it emits a `RuntimeWarning` and yields a
signed infinity (or NaN for `0/0`), and `math.atan(±inf) = ±pi/2`.  The
following small model captures exactly that semantics so that the
behaviour of the tilt computation on a vertical chord (`y6 == y0`) can be
evaluated.
-/

/-- An extended `numpy.float64` value. -/
inductive NpF where
  | fin : ℝ → NpF
  | pinf : NpF
  | ninf : NpF
  | nan : NpF

/-- Modelled from NumPy `float64` scalar division (IEEE-754): division of
a finite value by zero yields a signed infinity (NaN for `0/0`) and emits
only a `RuntimeWarning` — it raises no exception. -/
noncomputable def npDiv : NpF → NpF → NpF
  | .fin a, .fin b =>
    if b = 0 then (if 0 < a then .pinf else if a < 0 then .ninf else .nan)
    else .fin (a / b)
  | _, _ => .nan

/-- Modelled from `math.atan` on `numpy.float64` inputs:
`atan(±inf) = ±pi/2`, `atan(nan) = nan`. -/
noncomputable def npAtan : NpF → NpF
  | .fin a => .fin (Real.arctan a)
  | .pinf => .fin (Real.pi / 2)
  | .ninf => .fin (-(Real.pi / 2))
  | .nan => .nan

/-- The tilt computation of `eval_data_th0s` under the NumPy float
semantics it actually runs under: `beta = atan((z0-z6)/(y6-y0))`,
`th0 = degrees(pi/2 - beta)`.  No step of this computation can raise, so
the `except` branch of `eval_data_th0s` is never entered through it. -/
noncomputable def th0_np (p0 p6 : P3) : NpF :=
  match npAtan (npDiv (.fin (p0.z - p6.z)) (.fin (p6.y - p0.y))) with
  | .fin beta => .fin (degrees (Real.pi / 2 - beta))
  | .pinf => .pinf
  | .ninf => .ninf
  | .nan => .nan

/-!
## Concrete geometry inputs

A tilted plane `y + z = 0` and a position record whose four anchor points
(indices 0, 6, 5, 11) lie exactly in that plane, with the two chord lines
(0,6) and (5,11) intersecting at `X = (2, 2, -2)` — but at different
parameter values of the parameterizations used by `get_intersect_lines`.
-/

/-- The plane `y + z = 0`, as the 4-vector `(0, 1, 1, 0)`. -/
noncomputable def spC1 : SagPlane := ⟨0, 1, 1, 0⟩

/-- A position record: anchor points in the plane `y + z = 0`, all other
points at the origin. -/
noncomputable def ptsC1 : Fin 12 → P3 := fun i =>
  if i = (0 : Fin 12) then ⟨0, 0, 0⟩
  else if i = (5 : Fin 12) then ⟨-1, -2, 2⟩
  else if i = (6 : Fin 12) then ⟨1, 1, -1⟩
  else if i = (11 : Fin 12) then ⟨2, 2, -2⟩
  else ⟨0, 0, 0⟩

/-- The record of the tilt evaluation's exact test case: point 0 at
`(0, 0, 10)` and point 6 at `(0, 10, 0)`, i.e. `z0 = 10`, `z6 = 0`,
`y0 = 0`, `y6 = 10`. -/
noncomputable def pts45 : List P3 :=
  [⟨0, 0, 10⟩, ⟨0, 0, 0⟩, ⟨0, 0, 0⟩, ⟨0, 0, 0⟩, ⟨0, 0, 0⟩, ⟨0, 0, 0⟩, ⟨0, 10, 0⟩]

/-- C4: `get_intersect_lines` does not return the intersection point of
two coplanar, non-parallel lines that do intersect.  The lines through
`(0,0,0), (1,1,1)` and through `(-1,-2,-3), (2,2,2)` intersect at
`X = (2,2,2)` (at parameters `t = 2` and `s = 1` respectively), but the
elementwise quotient formula returns `(1/2, 2/3, 3/4)`, which is not `X`
and does not even lie on the first line. -/
theorem C4_intersect_lines_eval :
    (∃ t : ℝ, linePt ⟨0, 0, 0⟩ ⟨1, 1, 1⟩ t = ⟨2, 2, 2⟩) ∧
    (∃ s : ℝ, linePt ⟨-1, -2, -3⟩ ⟨2, 2, 2⟩ s = ⟨2, 2, 2⟩) ∧
    get_intersect_lines ⟨0, 0, 0⟩ ⟨1, 1, 1⟩ ⟨-1, -2, -3⟩ ⟨2, 2, 2⟩ = ⟨1/2, 2/3, 3/4⟩ ∧
    (∀ t : ℝ, linePt ⟨0, 0, 0⟩ ⟨1, 1, 1⟩ t ≠
      get_intersect_lines ⟨0, 0, 0⟩ ⟨1, 1, 1⟩ ⟨-1, -2, -3⟩ ⟨2, 2, 2⟩) := by
  have hres : get_intersect_lines ⟨0, 0, 0⟩ ⟨1, 1, 1⟩ ⟨-1, -2, -3⟩ ⟨2, 2, 2⟩ =
      ⟨1/2, 2/3, 3/4⟩ := by
    simp only [get_intersect_lines, P3.mk.injEq]
    norm_num
  refine ⟨⟨2, by norm_num [linePt]⟩, ⟨1, by norm_num [linePt]⟩, hres, ?_⟩
  intro t h
  rw [hres] at h
  have hx := congrArg P3.x h
  have hy := congrArg P3.y h
  simp only [linePt] at hx hy
  norm_num at hx hy
  rw [hx] at hy
  norm_num at hy

/-- C1: on the record `ptsC1` with configured plane `spC1`, the two chord
lines through the projected points (0,6) and (5,11) intersect at
`(2, 2, -2)`, but the centre emitted by the `eval_data_rs` body is not on
the first chord line at all, hence is not the chord-line intersection. -/
theorem C1_center_eval :
    (∃ t : ℝ, linePt (point_on_plane_projection (ptsC1 0) spC1)
        (point_on_plane_projection (ptsC1 6) spC1) t = ⟨2, 2, -2⟩) ∧
    (∃ s : ℝ, linePt (point_on_plane_projection (ptsC1 5) spC1)
        (point_on_plane_projection (ptsC1 11) spC1) s = ⟨2, 2, -2⟩) ∧
    (∀ t : ℝ, linePt (point_on_plane_projection (ptsC1 0) spC1)
        (point_on_plane_projection (ptsC1 6) spC1) t ≠ (eval_rs_point spC1 ptsC1).1) := by
  have h0 : ptsC1 0 = ⟨0, 0, 0⟩ := rfl
  have h5 : ptsC1 5 = ⟨-1, -2, 2⟩ := rfl
  have h6 : ptsC1 6 = ⟨1, 1, -1⟩ := rfl
  have h11 : ptsC1 11 = ⟨2, 2, -2⟩ := rfl
  have hp0 : point_on_plane_projection (ptsC1 0) spC1 = ⟨0, 0, 0⟩ := by
    rw [h0]
    simp only [point_on_plane_projection, spC1, P3.mk.injEq]
    norm_num
  have hp5 : point_on_plane_projection (ptsC1 5) spC1 = ⟨-1, -2, 2⟩ := by
    rw [h5]
    simp only [point_on_plane_projection, spC1, P3.mk.injEq]
    norm_num
  have hp6 : point_on_plane_projection (ptsC1 6) spC1 = ⟨1, 1, -1⟩ := by
    rw [h6]
    simp only [point_on_plane_projection, spC1, P3.mk.injEq]
    norm_num
  have hp11 : point_on_plane_projection (ptsC1 11) spC1 = ⟨2, 2, -2⟩ := by
    rw [h11]
    simp only [point_on_plane_projection, spC1, P3.mk.injEq]
    norm_num
  have hcen : (eval_rs_point spC1 ptsC1).1 = ⟨1/2, 2/3, -(2/3)⟩ := by
    show get_intersect_lines (point_on_plane_projection (ptsC1 0) spC1)
      (point_on_plane_projection (ptsC1 6) spC1)
      (point_on_plane_projection (ptsC1 5) spC1)
      (point_on_plane_projection (ptsC1 11) spC1) = _
    rw [hp0, hp5, hp6, hp11]
    simp only [get_intersect_lines, P3.mk.injEq]
    norm_num
  refine ⟨⟨2, by rw [hp0, hp6]; norm_num [linePt]⟩,
    ⟨1, by rw [hp5, hp11]; norm_num [linePt]⟩, ?_⟩
  intro t h
  rw [hp0, hp6, hcen] at h
  have hx := congrArg P3.x h
  have hy := congrArg P3.y h
  simp only [linePt] at hx hy
  norm_num at hx hy
  rw [hx] at hy
  norm_num at hy

/-- C5: for every `(position, points)` list all of whose records have
`y6 ≠ y0`, the tilts computed by `eval_data_th0s` are exactly
`90° - atan((z0-z6)/(y6-y0))` in degrees; and on the record with
`z0 = 10`, `z6 = 0`, `y0 = 0`, `y6 = 10` the tilt is exactly `45`. -/
theorem C5_th0s_formula (dats : List (ℚ × List P3))
    (_h : ∀ pr ∈ dats, (pr.2.getD 6 ⟨0, 0, 0⟩).y ≠ (pr.2.getD 0 ⟨0, 0, 0⟩).y) :
    eval_data_th0s dats = dats.map (fun pr =>
      90 - degrees (Real.arctan (((pr.2.getD 0 ⟨0, 0, 0⟩).z - (pr.2.getD 6 ⟨0, 0, 0⟩).z) /
        ((pr.2.getD 6 ⟨0, 0, 0⟩).y - (pr.2.getD 0 ⟨0, 0, 0⟩).y)))) ∧
    th0_of pts45 = 45 := by
  constructor
  · refine List.map_congr_left (fun pr _ => ?_)
    simp only [th0_of, degrees]
    field_simp
    ring
  · simp only [th0_of, pts45, degrees, List.getD]
    norm_num [Real.arctan_one]
    rw [div_eq_iff Real.pi_ne_zero]
    ring

/-- Witness for C5 at the concrete single-record list `[(0, pts45)]`. -/
theorem C5_th0s_formula_witness :
    (∀ pr ∈ [((0 : ℚ), pts45)],
      (pr.2.getD 6 ⟨0, 0, 0⟩).y ≠ (pr.2.getD 0 ⟨0, 0, 0⟩).y) ∧
    (eval_data_th0s [((0 : ℚ), pts45)] = [((0 : ℚ), pts45)].map (fun pr =>
      90 - degrees (Real.arctan (((pr.2.getD 0 ⟨0, 0, 0⟩).z - (pr.2.getD 6 ⟨0, 0, 0⟩).z) /
        ((pr.2.getD 6 ⟨0, 0, 0⟩).y - (pr.2.getD 0 ⟨0, 0, 0⟩).y)))) ∧
      th0_of pts45 = 45) := by
  have hh : ∀ pr ∈ [((0 : ℚ), pts45)],
      (pr.2.getD 6 ⟨0, 0, 0⟩).y ≠ (pr.2.getD 0 ⟨0, 0, 0⟩).y := by
    intro pr hpr
    simp only [List.mem_singleton] at hpr
    subst hpr
    simp [pts45, List.getD]
  exact ⟨hh, C5_th0s_formula _ hh⟩

/-- C6: on a vertical chord (`y6 == y0`) the tilt computation of
`eval_data_th0s` does not raise: under the NumPy float semantics the code
runs under, `(z0-z6)/(y6-y0) = (10-0)/0 = +inf` (a `RuntimeWarning`, not
an exception), `atan(inf) = pi/2`, and the silently appended tilt is
`degrees(pi/2 - pi/2) = 0.0` — no `GeometryError` path is taken and no
sentinel is returned. -/
theorem C6_vertical_chord_eval : th0_np ⟨0, 0, 10⟩ ⟨0, 0, 0⟩ = .fin 0 := by
  have hdiv : npDiv (.fin ((10 : ℝ) - 0)) (.fin ((0 : ℝ) - 0)) = .pinf := by
    simp [npDiv]
  simp only [th0_np]
  rw [show ((⟨0, 0, 10⟩ : P3).z - (⟨0, 0, 0⟩ : P3).z) = (10 : ℝ) - 0 from rfl,
    show ((⟨0, 0, 0⟩ : P3).y - (⟨0, 0, 10⟩ : P3).y) = (0 : ℝ) - 0 from rfl, hdiv]
  simp [npAtan, degrees]

/-- C7 (amended): with no configured sagittal plane, `get_sag_plane_dist`
prints the error report and returns the plain numeric sentinel `0` to its
caller — it does not raise and does not use a default plane; with a
configured plane it returns the (report-free) distance value. -/
theorem C7_sag_plane_dist_sentinel :
    (∀ p : P3, get_sag_plane_dist none p = (true, 0)) ∧
    (∀ (sp : SagPlane) (p : P3), get_sag_plane_dist (some sp) p =
      (false, |p.x * sp.a + p.y * sp.b + p.z * sp.c + sp.d| /
        Real.sqrt (sp.a ^ 2 + sp.b ^ 2 + sp.c ^ 2 + sp.d ^ 2))) :=
  ⟨fun _ => rfl, fun _ _ => rfl⟩

/-- C7 counterexample: invoked with no configured plane at the point
`(1, 2, 3)`, the evaluator does not fail fast — it returns the fabricated
numeric result `0` as its ordinary return value, the failure being
signalled only by the printed message (first component `true`). -/
theorem C7_counterexample : get_sag_plane_dist none ⟨1, 2, 3⟩ = (true, 0) := rfl

/-!
## Parser lemmas

Characterizations of single loop iterations, and composition lemmas for
the loop itself.
-/

theorem rrun_stop {α : Type} (n : ℕ) (z0 : α) (i : ℕ) (s : RState α)
    (l : List (Row α)) (h : s.err.isSome) : rrun n z0 i s l = s := by
  cases l with
  | nil => rfl
  | cons r rs => simp [rrun, h]

theorem rrun_cons {α : Type} (n : ℕ) (z0 : α) (i : ℕ) (s : RState α)
    (r : Row α) (rs : List (Row α)) (h : s.err = none) :
    rrun n z0 i s (r :: rs) = rrun n z0 (i + 1) (rstep n z0 i s r) rs := by
  simp [rrun, h]

theorem rrun_append {α : Type} (n : ℕ) (z0 : α) (l1 : List (Row α)) :
    ∀ (i : ℕ) (s : RState α) (l2 : List (Row α)),
    rrun n z0 i s (l1 ++ l2) = rrun n z0 (i + l1.length) (rrun n z0 i s l1) l2 := by
  induction l1 with
  | nil => intro i s l2; simp [rrun]
  | cons r t ih =>
    intro i s l2
    by_cases h : s.err.isSome
    · rw [rrun_stop n z0 _ s _ h, rrun_stop n z0 _ s _ h, rrun_stop n z0 _ s _ h]
    · have hn : s.err = none := Option.not_isSome_iff_eq_none.mp h
      rw [List.cons_append, rrun_cons n z0 i s _ _ hn, rrun_cons n z0 i s _ _ hn, ih]
      congr 1
      simp
      omega

theorem dinsert_fresh {κ β : Type} [DecidableEq κ] (k : κ) (v : β) :
    ∀ l : List (κ × β), k ∉ l.map Prod.fst → dinsert k v l = l ++ [(k, v)] := by
  intro l
  induction l with
  | nil => intro _; rfl
  | cons p t ih =>
    intro h
    simp only [List.map_cons, List.mem_cons] at h
    push_neg at h
    simp only [dinsert]
    rw [if_neg (fun hh => h.1 hh.symm), ih h.2]
    rfl

theorem rstep_write {α : Type} (n : ℕ) (z0 : α) (i : ℕ) (s : RState α)
    (ang run : ℤ) (pos : ℚ) (pt : ℕ) (v : α)
    (hptx : s.ptx = false) (hpt : pt < n) (hptl : pt ≠ n - 1)
    (hrun : run = s.rnx) (hang : ang = s.angx) :
    rstep n z0 i s (.good ang run pos pt v) = { s with pts := s.pts.set pt v } := by
  simp [rstep, hptx, hpt, hptl, hrun, hang]

theorem rstep_write_last {α : Type} (n : ℕ) (z0 : α) (i : ℕ) (s : RState α)
    (ang run : ℤ) (pos : ℚ) (pt : ℕ) (v : α)
    (hptx : s.ptx = false) (hpt : pt < n) (hptl : pt = n - 1)
    (hrun : run = s.rnx) (hang : ang = s.angx) :
    rstep n z0 i s (.good ang run pos pt v) =
      { s with pts := s.pts.set pt v, bpos := pos, ptx := true } := by
  have hn0 : ¬n = 0 := by omega
  simp [rstep, hptx, hpt, hptl, hrun, hang, hn0]

theorem rstep_flush_write {α : Type} (n : ℕ) (z0 : α) (i : ℕ) (s : RState α)
    (ang run : ℤ) (pos : ℚ) (v : α)
    (hptx : s.ptx = true) (hn : 2 ≤ n)
    (hrun : run = s.rnx) (hang : ang = s.angx) :
    rstep n z0 i s (.good ang run pos 0 v) =
      { s with apos := dinsert s.bpos s.pts s.apos, ptx := false,
               pts := (List.replicate n z0).set 0 v } := by
  have h1 : (0 : ℕ) < n := by omega
  have h2 : (0 : ℕ) ≠ n - 1 := by omega
  simp [rstep, hptx, h1, h2, hrun, hang]

theorem rstep_run_entry {α : Type} (n : ℕ) (z0 : α) (i : ℕ) (s : RState α)
    (ang run : ℤ) (pos : ℚ) (v : α)
    (hptx : s.ptx = true) (hn : 2 ≤ n)
    (hrun : run ≠ s.rnx) (hang : ang = s.angx) :
    rstep n z0 i s (.good ang run pos 0 v) =
      { s with runs := dinsert s.rnx (dinsert s.bpos s.pts s.apos) s.runs,
               rnx := run, apos := [], ptx := false,
               pts := (List.replicate n z0).set 0 v } := by
  have h1 : (0 : ℕ) < n := by omega
  have h2 : (0 : ℕ) ≠ n - 1 := by omega
  simp [rstep, hptx, h1, h2, hrun, hang]

theorem rstep_ang_entry {α : Type} (n : ℕ) (z0 : α) (i : ℕ) (s : RState α)
    (ang run : ℤ) (pos : ℚ) (v : α)
    (hptx : s.ptx = true) (hn : 2 ≤ n)
    (hang : ang ≠ s.angx) :
    rstep n z0 i s (.good ang run pos 0 v) =
      { s with angs := dinsert s.angx
                 (dinsert s.rnx (dinsert s.bpos s.pts s.apos) s.runs) s.angs,
               angx := ang, rnx := 0, runs := [], apos := [], ptx := false,
               pts := (List.replicate n z0).set 0 v } := by
  have h1 : (0 : ℕ) < n := by omega
  have h2 : (0 : ℕ) ≠ n - 1 := by omega
  by_cases hrun : run = s.rnx
  · simp [rstep, hptx, h1, h2, hrun, hang]
  · simp [rstep, hptx, h1, h2, hrun, hang]

theorem rrun_writes {α : Type} (n : ℕ) (z0 : α) (ang run : ℤ) (pos : ℚ) (g : ℕ → α) :
    ∀ (k a i : ℕ) (s : RState α), 0 < k → a + k = n →
    s.ptx = false → run = s.rnx → ang = s.angx → s.err = none →
    rrun n z0 i s (grAux ang run pos g a k) =
      { s with pts := writeFrom s.pts g a k, bpos := pos, ptx := true } := by
  intro k
  induction k with
  | zero => intro a i s hk _ _ _ _ _; omega
  | succ k' ih =>
    intro a i s _ hak hptx hrun hang herr
    rcases Nat.eq_zero_or_pos k' with h0 | hpos
    · subst h0
      simp only [grAux]
      rw [rrun_cons n z0 i s _ _ herr,
        rstep_write_last n z0 i s ang run pos a (g a) hptx (by omega) (by omega) hrun hang]
      simp only [rrun, writeFrom]
    · simp only [grAux]
      rw [rrun_cons n z0 i s _ _ herr,
        rstep_write n z0 i s ang run pos a (g a) hptx (by omega) (by omega) hrun hang]
      rw [ih (a + 1) (i + 1) { s with pts := s.pts.set a (g a) }
        hpos (by omega) hptx hrun hang herr]
      simp only [writeFrom]

theorem grAux_head {α : Type} (ang run : ℤ) (pos : ℚ) (g : ℕ → α) (k : ℕ) :
    grAux ang run pos g 0 (k + 1) =
      .good ang run pos 0 (g 0) :: grAux ang run pos g 1 k := rfl

theorem rrun_group {α : Type} (n : ℕ) (z0 : α) (i : ℕ) (s : RState α)
    (ang run : ℤ) (pos : ℚ) (g : ℕ → α)
    (hn : 2 ≤ n) (hptx : s.ptx = true) (hrun : run = s.rnx) (hang : ang = s.angx)
    (herr : s.err = none) :
    rrun n z0 i s (groupRows ang run pos g n) =
      { s with apos := dinsert s.bpos s.pts s.apos, pts := bufOf z0 g n,
               bpos := pos, ptx := true } := by
  obtain ⟨m, rfl⟩ : ∃ m, n = m + 2 := ⟨n - 2, by omega⟩
  simp only [groupRows]
  rw [grAux_head]
  rw [rrun_cons _ z0 i s _ _ herr,
    rstep_flush_write _ z0 i s ang run pos (g 0) hptx hn hrun hang]
  rw [rrun_writes _ z0 ang run pos g (m + 1) 1 (i + 1)
    { s with apos := dinsert s.bpos s.pts s.apos, ptx := false,
             pts := (List.replicate (m + 2) z0).set 0 (g 0) }
    (by omega) (by omega) rfl hrun hang herr]
  simp only [bufOf, writeFrom, Nat.zero_add]

theorem rrun_group_init {α : Type} (n : ℕ) (z0 : α) (i : ℕ) (s : RState α)
    (ang run : ℤ) (pos : ℚ) (g : ℕ → α)
    (hn : 2 ≤ n) (hptx : s.ptx = false) (hrun : run = s.rnx) (hang : ang = s.angx)
    (herr : s.err = none) (hpts : s.pts = List.replicate n z0) :
    rrun n z0 i s (groupRows ang run pos g n) =
      { s with pts := bufOf z0 g n, bpos := pos, ptx := true } := by
  obtain ⟨m, rfl⟩ : ∃ m, n = m + 2 := ⟨n - 2, by omega⟩
  simp only [groupRows]
  rw [grAux_head]
  rw [rrun_cons _ z0 i s _ _ herr,
    rstep_write _ z0 i s ang run pos 0 (g 0) hptx (by omega) (by omega) hrun hang]
  rw [rrun_writes _ z0 ang run pos g (m + 1) 1 (i + 1)
    { s with pts := s.pts.set 0 (g 0) }
    (by omega) (by omega) hptx hrun hang herr]
  rw [hpts]
  simp only [bufOf, writeFrom, Nat.zero_add]

theorem rrun_group_run_entry {α : Type} (n : ℕ) (z0 : α) (i : ℕ) (s : RState α)
    (ang run : ℤ) (pos : ℚ) (g : ℕ → α)
    (hn : 2 ≤ n) (hptx : s.ptx = true) (hrun : run ≠ s.rnx) (hang : ang = s.angx)
    (herr : s.err = none) :
    rrun n z0 i s (groupRows ang run pos g n) =
      { s with runs := dinsert s.rnx (dinsert s.bpos s.pts s.apos) s.runs,
               rnx := run, apos := [], pts := bufOf z0 g n,
               bpos := pos, ptx := true } := by
  obtain ⟨m, rfl⟩ : ∃ m, n = m + 2 := ⟨n - 2, by omega⟩
  simp only [groupRows]
  rw [grAux_head]
  rw [rrun_cons _ z0 i s _ _ herr,
    rstep_run_entry _ z0 i s ang run pos (g 0) hptx hn hrun hang]
  rw [rrun_writes _ z0 ang run pos g (m + 1) 1 (i + 1)
    { s with runs := dinsert s.rnx (dinsert s.bpos s.pts s.apos) s.runs,
             rnx := run, apos := [], ptx := false,
             pts := (List.replicate (m + 2) z0).set 0 (g 0) }
    (by omega) (by omega) rfl rfl hang herr]
  simp only [bufOf, writeFrom, Nat.zero_add]

theorem rrun_group_ang_entry {α : Type} (n : ℕ) (z0 : α) (i : ℕ) (s : RState α)
    (ang run : ℤ) (pos : ℚ) (g : ℕ → α)
    (hn : 2 ≤ n) (hptx : s.ptx = true) (hang : ang ≠ s.angx)
    (herr : s.err = none) (hrun0 : run = 0) :
    rrun n z0 i s (groupRows ang run pos g n) =
      { s with angs := dinsert s.angx
                 (dinsert s.rnx (dinsert s.bpos s.pts s.apos) s.runs) s.angs,
               angx := ang, rnx := 0, runs := [], apos := [],
               pts := bufOf z0 g n, bpos := pos, ptx := true } := by
  obtain ⟨m, rfl⟩ : ∃ m, n = m + 2 := ⟨n - 2, by omega⟩
  subst hrun0
  simp only [groupRows]
  rw [grAux_head]
  rw [rrun_cons _ z0 i s _ _ herr,
    rstep_ang_entry _ z0 i s ang 0 pos (g 0) hptx hn hang]
  rw [rrun_writes _ z0 ang 0 pos g (m + 1) 1 (i + 1)
    { s with angs := dinsert s.angx
               (dinsert s.rnx (dinsert s.bpos s.pts s.apos) s.runs) s.angs,
             angx := ang, rnx := 0, runs := [], apos := [], ptx := false,
             pts := (List.replicate (m + 2) z0).set 0 (g 0) }
    (by omega) (by omega) rfl rfl rfl herr]
  simp only [bufOf, writeFrom, Nat.zero_add]

theorem flushList_snoc {α : Type} (q : ℕ → ℚ) (b : ℕ → List α) :
    ∀ (k j : ℕ), flushList q b j (k + 1) =
      flushList q b j k ++ [(q (j + k), b (j + k))] := by
  intro k
  induction k with
  | zero => intro j; simp [flushList]
  | succ k' ih =>
    intro j
    rw [flushList, ih (j + 1), flushList]
    have h : j + 1 + k' = j + (k' + 1) := by omega
    rw [h]
    rfl

theorem zList_snoc {β : Type} (v : ℕ → β) :
    ∀ (k j : ℕ), zList v j (k + 1) = zList v j k ++ [(((j + k : ℕ) : ℤ), v (j + k))] := by
  intro k
  induction k with
  | zero => intro j; simp [zList]
  | succ k' ih =>
    intro j
    rw [zList, ih (j + 1), zList]
    have h : j + 1 + k' = j + (k' + 1) := by omega
    rw [h]
    rfl

theorem mem_flushList_fst {α : Type} (q : ℕ → ℚ) (b : ℕ → List α) :
    ∀ (k j : ℕ) (x : ℚ), x ∈ (flushList q b j k).map Prod.fst →
      ∃ t, t < k ∧ x = q (j + t) := by
  intro k
  induction k with
  | zero => intro j x hx; simp [flushList] at hx
  | succ k' ih =>
    intro j x hx
    rw [flushList] at hx
    simp only [List.map_cons, List.mem_cons] at hx
    rcases hx with hx | hx
    · exact ⟨0, by omega, by simpa using hx⟩
    · obtain ⟨t, ht, hq⟩ := ih (j + 1) x hx
      exact ⟨t + 1, by omega, by rw [hq]; congr 1; omega⟩

theorem mem_zList_fst {β : Type} (v : ℕ → β) :
    ∀ (k j : ℕ) (x : ℤ), x ∈ (zList v j k).map Prod.fst →
      ∃ t, t < k ∧ x = ((j + t : ℕ) : ℤ) := by
  intro k
  induction k with
  | zero => intro j x hx; simp [zList] at hx
  | succ k' ih =>
    intro j x hx
    rw [zList] at hx
    simp only [List.map_cons, List.mem_cons] at hx
    rcases hx with hx | hx
    · exact ⟨0, by omega, by simpa using hx⟩
    · obtain ⟨t, ht, hq⟩ := ih (j + 1) x hx
      exact ⟨t + 1, by omega, by rw [hq]; congr 1; omega⟩

theorem rrun_runTail {α : Type} (n : ℕ) (z0 : α) (ang run : ℤ)
    (q1 : ℕ → ℚ) (g1 : ℕ → ℕ → α) (hn : 2 ≤ n) :
    ∀ (k l i : ℕ) (base : RState α),
    run = base.rnx → ang = base.angx → base.err = none →
    (∀ t1 t2, t1 ≤ l + k → t2 ≤ l + k → q1 t1 = q1 t2 → t1 = t2) →
    rrun n z0 i (midRun base q1 (fun j => bufOf z0 (g1 j) n) l)
        (runGroups ang run q1 g1 n (l + 1) k) =
      midRun base q1 (fun j => bufOf z0 (g1 j) n) (l + k) := by
  intro k
  induction k with
  | zero => intro l i base _ _ _ _; rfl
  | succ k' ih =>
    intro l i base hrun hang herr hq
    rw [runGroups, rrun_append]
    rw [rrun_group n z0 i (midRun base q1 (fun j => bufOf z0 (g1 j) n) l)
      ang run (q1 (l + 1)) (g1 (l + 1)) hn rfl hrun hang herr]
    have hfresh : q1 l ∉ (flushList q1 (fun j => bufOf z0 (g1 j) n) 0 l).map Prod.fst := by
      intro hmem
      obtain ⟨t, ht, hqx⟩ := mem_flushList_fst _ _ l 0 _ hmem
      have := hq l (0 + t) (by omega) (by omega) hqx
      omega
    have hins : dinsert (q1 l) (bufOf z0 (g1 l) n)
        (flushList q1 (fun j => bufOf z0 (g1 j) n) 0 l) =
        flushList q1 (fun j => bufOf z0 (g1 j) n) 0 (l + 1) := by
      rw [dinsert_fresh _ _ _ hfresh, flushList_snoc]
      simp
    have hmid : ({ midRun base q1 (fun j => bufOf z0 (g1 j) n) l with
        apos := dinsert (midRun base q1 (fun j => bufOf z0 (g1 j) n) l).bpos
          (midRun base q1 (fun j => bufOf z0 (g1 j) n) l).pts
          (midRun base q1 (fun j => bufOf z0 (g1 j) n) l).apos,
        pts := bufOf z0 (g1 (l + 1)) n, bpos := q1 (l + 1), ptx := true } : RState α) =
        midRun base q1 (fun j => bufOf z0 (g1 j) n) (l + 1) := by
      simp only [midRun]
      rw [hins]
    rw [hmid, ih (l + 1) _ base hrun hang herr
      (fun t1 t2 h1 h2 => hq t1 t2 (by omega) (by omega))]
    have h : l + 1 + k' = l + (k' + 1) := by omega
    rw [h]

theorem rrun_angTail {α : Type} (n : ℕ) (z0 : α) (ang : ℤ)
    (qa : ℕ → ℕ → ℚ) (ga : ℕ → ℕ → ℕ → α) (p : ℕ) (hn : 2 ≤ n) :
    ∀ (k r i : ℕ) (base : RState α),
    ang = base.angx → base.err = none →
    (∀ r' t1 t2, r' ≤ r + k → t1 ≤ p → t2 ≤ p → qa r' t1 = qa r' t2 → t1 = t2) →
    rrun n z0 i (midAng base z0 qa ga p n r) (angRuns ang qa ga (p + 1) n (r + 1) k) =
      midAng base z0 qa ga p n (r + k) := by
  intro k
  induction k with
  | zero => intro r i base _ _ _; rfl
  | succ k' ih =>
    intro r i base hang herr hq
    rw [angRuns, rrun_append, runGroups, rrun_append]
    rw [rrun_group_run_entry n z0 i (midAng base z0 qa ga p n r)
      ang ((r + 1 : ℕ) : ℤ) (qa (r + 1) 0) (ga (r + 1) 0) hn rfl
      (show ((r + 1 : ℕ) : ℤ) ≠ ((r : ℕ) : ℤ) by omega) hang herr]
    have hins1 : dinsert (qa r p) (bufOf z0 (ga r p) n)
        (flushList (qa r) (fun j => bufOf z0 (ga r j) n) 0 p) =
        flushList (qa r) (fun j => bufOf z0 (ga r j) n) 0 (p + 1) := by
      have hfresh : qa r p ∉
          ((flushList (qa r) (fun j => bufOf z0 (ga r j) n) 0 p).map Prod.fst) := by
        intro hmem
        obtain ⟨t, ht, hqx⟩ := mem_flushList_fst _ _ p 0 _ hmem
        have := hq r p (0 + t) (by omega) (by omega) (by omega) hqx
        omega
      rw [dinsert_fresh _ _ _ hfresh, flushList_snoc]
      simp
    have hins2 : dinsert ((r : ℕ) : ℤ)
        (flushList (qa r) (fun j => bufOf z0 (ga r j) n) 0 (p + 1))
        (zList (fun r' => flushList (qa r')
          (fun j => bufOf z0 (ga r' j) n) 0 (p + 1)) 0 r) =
        zList (fun r' => flushList (qa r')
          (fun j => bufOf z0 (ga r' j) n) 0 (p + 1)) 0 (r + 1) := by
      have hfresh : ((r : ℕ) : ℤ) ∉
          ((zList (fun r' => flushList (qa r')
            (fun j => bufOf z0 (ga r' j) n) 0 (p + 1)) 0 r).map Prod.fst) := by
        intro hmem
        obtain ⟨t, ht, hqx⟩ := mem_zList_fst _ r 0 _ hmem
        omega
      rw [dinsert_fresh _ _ _ hfresh, zList_snoc]
      simp
    have hmid : ({ midAng base z0 qa ga p n r with
        runs := dinsert (midAng base z0 qa ga p n r).rnx
          (dinsert (midAng base z0 qa ga p n r).bpos (midAng base z0 qa ga p n r).pts
            (midAng base z0 qa ga p n r).apos)
          (midAng base z0 qa ga p n r).runs,
        rnx := ((r + 1 : ℕ) : ℤ), apos := [],
        pts := bufOf z0 (ga (r + 1) 0) n, bpos := qa (r + 1) 0,
        ptx := true } : RState α) =
        midRun { base with
          runs := zList (fun r' => flushList (qa r')
            (fun j => bufOf z0 (ga r' j) n) 0 (p + 1)) 0 (r + 1),
          rnx := ((r + 1 : ℕ) : ℤ) }
          (qa (r + 1)) (fun j => bufOf z0 (ga (r + 1) j) n) 0 := by
      simp only [midAng, midRun]
      rw [hins1, hins2]
      rfl
    rw [hmid]
    rw [rrun_runTail n z0 ang ((r + 1 : ℕ) : ℤ) (qa (r + 1)) (ga (r + 1)) hn p 0
      (i + (groupRows ang ((r + 1 : ℕ) : ℤ) (qa (r + 1) 0) (ga (r + 1) 0) n).length)
      { base with
        runs := zList (fun r' => flushList (qa r')
          (fun j => bufOf z0 (ga r' j) n) 0 (p + 1)) 0 (r + 1),
        rnx := ((r + 1 : ℕ) : ℤ) }
      rfl hang herr
      (fun t1 t2 h1 h2 => hq (r + 1) t1 t2 (by omega) (by omega) (by omega))]
    have hmid2 : midRun { base with
        runs := zList (fun r' => flushList (qa r')
          (fun j => bufOf z0 (ga r' j) n) 0 (p + 1)) 0 (r + 1),
        rnx := ((r + 1 : ℕ) : ℤ) }
        (qa (r + 1)) (fun j => bufOf z0 (ga (r + 1) j) n) (0 + p) =
        midAng base z0 qa ga p n (r + 1) := by
      simp only [midRun, midAng, Nat.zero_add]
    rw [hmid2]
    rw [ih (r + 1) _ base hang herr
      (fun r' t1 t2 h1 h2 h3 => hq r' t1 t2 (by omega) h2 h3)]
    have h : r + 1 + k' = r + (k' + 1) := by omega
    rw [h]


theorem rrun_streamTail {α : Type} (n : ℕ) (z0 : α)
    (q : ℕ → ℕ → ℕ → ℚ) (g : ℕ → ℕ → ℕ → ℕ → α) (p u : ℕ) (hn : 2 ≤ n) :
    ∀ (k a i : ℕ),
    (∀ a' r' t1 t2, a' ≤ a + k → r' ≤ u → t1 ≤ p → t2 ≤ p →
      q a' r' t1 = q a' r' t2 → t1 = t2) →
    rrun n z0 i (midStr z0 q g n p u a) (streamAngs q g (u + 1) (p + 1) n (a + 1) k) =
      midStr z0 q g n p u (a + k) := by
  intro k
  induction k with
  | zero => intro a i _; rfl
  | succ k' ih =>
    intro a i hq
    rw [streamAngs, rrun_append, angRuns, rrun_append, runGroups, rrun_append]
    rw [rrun_group_ang_entry n z0 i (midStr z0 q g n p u a)
      ((a + 1 : ℕ) : ℤ) ((0 : ℕ) : ℤ) (q (a + 1) 0 0) (g (a + 1) 0 0) hn rfl
      (show ((a + 1 : ℕ) : ℤ) ≠ ((a : ℕ) : ℤ) by omega) rfl (by simp)]
    have hins1 : dinsert (q a u p) (bufOf z0 (g a u p) n)
        (flushList (q a u) (fun j => bufOf z0 (g a u j) n) 0 p) =
        flushList (q a u) (fun j => bufOf z0 (g a u j) n) 0 (p + 1) := by
      have hfresh : q a u p ∉
          ((flushList (q a u) (fun j => bufOf z0 (g a u j) n) 0 p).map Prod.fst) := by
        intro hmem
        obtain ⟨t, ht, hqx⟩ := mem_flushList_fst _ _ p 0 _ hmem
        have := hq a u p (0 + t) (by omega) (by omega) (by omega) (by omega) hqx
        omega
      rw [dinsert_fresh _ _ _ hfresh, flushList_snoc]
      simp
    have hins2 : dinsert ((u : ℕ) : ℤ)
        (flushList (q a u) (fun j => bufOf z0 (g a u j) n) 0 (p + 1))
        (zList (fun r' => flushList (q a r')
          (fun j => bufOf z0 (g a r' j) n) 0 (p + 1)) 0 u) =
        zList (fun r' => flushList (q a r')
          (fun j => bufOf z0 (g a r' j) n) 0 (p + 1)) 0 (u + 1) := by
      have hfresh : ((u : ℕ) : ℤ) ∉
          ((zList (fun r' => flushList (q a r')
            (fun j => bufOf z0 (g a r' j) n) 0 (p + 1)) 0 u).map Prod.fst) := by
        intro hmem
        obtain ⟨t, ht, hqx⟩ := mem_zList_fst _ u 0 _ hmem
        omega
      rw [dinsert_fresh _ _ _ hfresh,
        zList_snoc (fun r' => flushList (q a r')
          (fun j => bufOf z0 (g a r' j) n) 0 (p + 1)) u 0]
      simp
    have hins3 : dinsert ((a : ℕ) : ℤ)
        (zList (fun r' => flushList (q a r')
          (fun j => bufOf z0 (g a r' j) n) 0 (p + 1)) 0 (u + 1))
        (zList (fun a' => zList (fun r' => flushList (q a' r')
          (fun j => bufOf z0 (g a' r' j) n) 0 (p + 1)) 0 (u + 1)) 0 a) =
        zList (fun a' => zList (fun r' => flushList (q a' r')
          (fun j => bufOf z0 (g a' r' j) n) 0 (p + 1)) 0 (u + 1)) 0 (a + 1) := by
      have hfresh : ((a : ℕ) : ℤ) ∉
          ((zList (fun a' => zList (fun r' => flushList (q a' r')
            (fun j => bufOf z0 (g a' r' j) n) 0 (p + 1)) 0 (u + 1)) 0 a).map
              Prod.fst) := by
        intro hmem
        obtain ⟨t, ht, hqx⟩ := mem_zList_fst _ a 0 _ hmem
        omega
      rw [dinsert_fresh _ _ _ hfresh,
        zList_snoc (fun a' => zList (fun r' => flushList (q a' r')
          (fun j => bufOf z0 (g a' r' j) n) 0 (p + 1)) 0 (u + 1)) a 0]
      simp
    have hmid : ({ midStr z0 q g n p u a with
        angs := dinsert (midStr z0 q g n p u a).angx
          (dinsert (midStr z0 q g n p u a).rnx
            (dinsert (midStr z0 q g n p u a).bpos (midStr z0 q g n p u a).pts
              (midStr z0 q g n p u a).apos)
            (midStr z0 q g n p u a).runs)
          (midStr z0 q g n p u a).angs,
        angx := ((a + 1 : ℕ) : ℤ), rnx := 0, runs := [], apos := [],
        pts := bufOf z0 (g (a + 1) 0 0) n, bpos := q (a + 1) 0 0,
        ptx := true } : RState α) =
        midRun (strBase z0 q g n p u (a + 1))
          (q (a + 1) 0) (fun j => bufOf z0 (g (a + 1) 0 j) n) 0 := by
      simp only [midStr, midAng, midRun, strBase]
      rw [hins1, hins2, hins3]
      simp [flushList]
    rw [hmid]
    rw [rrun_runTail n z0 ((a + 1 : ℕ) : ℤ) ((0 : ℕ) : ℤ)
      (q (a + 1) 0) (g (a + 1) 0) hn p 0 _ (strBase z0 q g n p u (a + 1))
      (by simp [strBase]) rfl rfl
      (fun t1 t2 h1 h2 => hq (a + 1) 0 t1 t2 (by omega) (by omega) (by omega) (by omega))]
    have hmid2 : midRun (strBase z0 q g n p u (a + 1))
        (q (a + 1) 0) (fun j => bufOf z0 (g (a + 1) 0 j) n) (0 + p) =
        midAng (strBase z0 q g n p u (a + 1)) z0 (q (a + 1)) (g (a + 1)) p n 0 := by
      simp only [midRun, midAng, strBase, Nat.zero_add, zList, Nat.cast_zero]
    rw [hmid2]
    rw [rrun_angTail n z0 ((a + 1 : ℕ) : ℤ) (q (a + 1)) (g (a + 1)) p hn u 0 _
      (strBase z0 q g n p u (a + 1)) rfl rfl
      (fun r' t1 t2 h1 h2 h3 => hq (a + 1) r' t1 t2 (by omega) (by omega) h2 h3)]
    have hmid3 : midAng (strBase z0 q g n p u (a + 1)) z0
        (q (a + 1)) (g (a + 1)) p n (0 + u) = midStr z0 q g n p u (a + 1) := by
      simp only [midAng, midStr, Nat.zero_add]
    rw [hmid3]
    rw [ih (a + 1) _
      (fun a' r' t1 t2 h1 h2 h3 h4 => hq a' r' t1 t2 (by omega) h2 h3 h4)]
    have h : a + 1 + k' = a + (k' + 1) := by omega
    rw [h]

/-- Full content of ingesting a well-formed synthetic stream with `w+1`
angles, `u+1` runs per angle, `p+1` positions per run and `n ≥ 2` points
per position (positions pairwise distinct within each run): the returned
dataset is exactly the expected nested map, and no error is reported. -/
theorem read_data_stream {α : Type} (n : ℕ) (z0 : α) (q : ℕ → ℕ → ℕ → ℚ)
    (g : ℕ → ℕ → ℕ → ℕ → α) (p u w : ℕ) (hn : 2 ≤ n)
    (hq : ∀ a r t1 t2, a ≤ w → r ≤ u → t1 ≤ p → t2 ≤ p →
      q a r t1 = q a r t2 → t1 = t2) :
    read_data n z0 (streamRows q g (w + 1) (u + 1) (p + 1) n) =
      (angsFull z0 q g (w + 1) (u + 1) (p + 1) n, none) := by
  unfold read_data streamRows
  rw [streamAngs, rrun_append, angRuns, rrun_append, runGroups, rrun_append]
  rw [rrun_group_init n z0 0 (initState n z0) ((0 : ℕ) : ℤ) ((0 : ℕ) : ℤ)
    (q 0 0 0) (g 0 0 0) hn rfl (by simp [initState]) (by simp [initState]) rfl rfl]
  have hmid0 : ({ initState n z0 with
      pts := bufOf z0 (g 0 0 0) n,
      bpos := q 0 0 0, ptx := true } : RState α) =
      midRun (initState n z0) (q 0 0) (fun j => bufOf z0 (g 0 0 j) n) 0 := by
    simp only [midRun, initState, flushList]
  rw [hmid0]
  rw [rrun_runTail n z0 ((0 : ℕ) : ℤ) ((0 : ℕ) : ℤ) (q 0 0) (g 0 0) hn p 0 _
    (initState n z0) (by simp [initState]) (by simp [initState]) rfl
    (fun t1 t2 h1 h2 => hq 0 0 t1 t2 (by omega) (by omega) (by omega) (by omega))]
  have hmidA : midRun (initState n z0) (q 0 0) (fun j => bufOf z0 (g 0 0 j) n)
      (0 + p) = midAng (initState n z0) z0 (q 0) (g 0) p n 0 := by
    simp only [midRun, midAng, initState, Nat.zero_add, zList, Nat.cast_zero]
  rw [hmidA]
  rw [rrun_angTail n z0 ((0 : ℕ) : ℤ) (q 0) (g 0) p hn u 0 _ (initState n z0)
    (by simp [initState]) rfl
    (fun r' t1 t2 h1 h2 h3 => hq 0 r' t1 t2 (by omega) (by omega) h2 h3)]
  have hmidS : midAng (initState n z0) z0 (q 0) (g 0) p n (0 + u) =
      midStr z0 q g n p u 0 := by
    simp only [midAng, midStr, strBase, initState, Nat.zero_add, zList, Nat.cast_zero]
  rw [hmidS]
  rw [rrun_streamTail n z0 q g p u hn w 0 _
    (fun a' r' t1 t2 h1 h2 h3 h4 => hq a' r' t1 t2 (by omega) h2 h3 h4)]
  have hf1 : dinsert (q (0 + w) u p) (bufOf z0 (g (0 + w) u p) n)
      (flushList (q (0 + w) u) (fun j => bufOf z0 (g (0 + w) u j) n) 0 p) =
      flushList (q (0 + w) u) (fun j => bufOf z0 (g (0 + w) u j) n) 0 (p + 1) := by
    have hfresh : q (0 + w) u p ∉
        ((flushList (q (0 + w) u) (fun j => bufOf z0 (g (0 + w) u j) n) 0 p).map
          Prod.fst) := by
      intro hmem
      obtain ⟨t, ht, hqx⟩ := mem_flushList_fst _ _ p 0 _ hmem
      have := hq (0 + w) u p (0 + t) (by omega) (by omega) (by omega) (by omega) hqx
      omega
    rw [dinsert_fresh _ _ _ hfresh, flushList_snoc]
    simp
  have hf2 : dinsert ((u : ℕ) : ℤ)
      (flushList (q (0 + w) u) (fun j => bufOf z0 (g (0 + w) u j) n) 0 (p + 1))
      (zList (fun r' => flushList (q (0 + w) r')
        (fun j => bufOf z0 (g (0 + w) r' j) n) 0 (p + 1)) 0 u) =
      zList (fun r' => flushList (q (0 + w) r')
        (fun j => bufOf z0 (g (0 + w) r' j) n) 0 (p + 1)) 0 (u + 1) := by
    have hfresh : ((u : ℕ) : ℤ) ∉
        ((zList (fun r' => flushList (q (0 + w) r')
          (fun j => bufOf z0 (g (0 + w) r' j) n) 0 (p + 1)) 0 u).map Prod.fst) := by
      intro hmem
      obtain ⟨t, ht, hqx⟩ := mem_zList_fst _ u 0 _ hmem
      omega
    rw [dinsert_fresh _ _ _ hfresh,
      zList_snoc (fun r' => flushList (q (0 + w) r')
        (fun j => bufOf z0 (g (0 + w) r' j) n) 0 (p + 1)) u 0]
    simp
  have hf3 : dinsert ((0 + w : ℕ) : ℤ)
      (zList (fun r' => flushList (q (0 + w) r')
        (fun j => bufOf z0 (g (0 + w) r' j) n) 0 (p + 1)) 0 (u + 1))
      (zList (fun a' => zList (fun r' => flushList (q a' r')
        (fun j => bufOf z0 (g a' r' j) n) 0 (p + 1)) 0 (u + 1)) 0 (0 + w)) =
      zList (fun a' => zList (fun r' => flushList (q a' r')
        (fun j => bufOf z0 (g a' r' j) n) 0 (p + 1)) 0 (u + 1)) 0 (0 + w + 1) := by
    have hfresh : ((0 + w : ℕ) : ℤ) ∉
        ((zList (fun a' => zList (fun r' => flushList (q a' r')
          (fun j => bufOf z0 (g a' r' j) n) 0 (p + 1)) 0 (u + 1)) 0 (0 + w)).map
            Prod.fst) := by
      intro hmem
      obtain ⟨t, ht, hqx⟩ := mem_zList_fst _ (0 + w) 0 _ hmem
      omega
    rw [dinsert_fresh _ _ _ hfresh,
      zList_snoc (fun a' => zList (fun r' => flushList (q a' r')
        (fun j => bufOf z0 (g a' r' j) n) 0 (p + 1)) 0 (u + 1)) (0 + w) 0]
    simp
  simp only [finalFlush, midStr, midAng, strBase]
  rw [hf1, hf2, hf3]
  simp only [angsFull, runsFull, aposFull, Nat.zero_add]

theorem grAux_length {α : Type} (ang run : ℤ) (pos : ℚ) (g : ℕ → α) :
    ∀ (k a : ℕ), (grAux ang run pos g a k).length = k := by
  intro k
  induction k with
  | zero => intro a; rfl
  | succ k' ih => intro a; simp [grAux, ih (a + 1)]

theorem writeFrom_length {α : Type} (g : ℕ → α) :
    ∀ (k a : ℕ) (l : List α), (writeFrom l g a k).length = l.length := by
  intro k
  induction k with
  | zero => intro a l; rfl
  | succ k' ih => intro a l; rw [writeFrom, ih (a + 1)]; simp

theorem bufOf_length {α : Type} (z0 : α) (g : ℕ → α) (n : ℕ) :
    (bufOf z0 g n).length = n := by
  rw [bufOf, writeFrom_length]
  simp

theorem flushList_length {α : Type} (q : ℕ → ℚ) (b : ℕ → List α) :
    ∀ (k j : ℕ), (flushList q b j k).length = k := by
  intro k
  induction k with
  | zero => intro j; rfl
  | succ k' ih => intro j; simp [flushList, ih (j + 1)]

theorem zList_length {β : Type} (v : ℕ → β) :
    ∀ (k j : ℕ), (zList v j k).length = k := by
  intro k
  induction k with
  | zero => intro j; rfl
  | succ k' ih => intro j; simp [zList, ih (j + 1)]

theorem mem_zList {β : Type} (v : ℕ → β) :
    ∀ (k j : ℕ) (e : ℤ × β), e ∈ zList v j k →
      ∃ t, t < k ∧ e = (((j + t : ℕ) : ℤ), v (j + t)) := by
  intro k
  induction k with
  | zero => intro j e he; simp [zList] at he
  | succ k' ih =>
    intro j e he
    rw [zList] at he
    rcases List.mem_cons.mp he with he | he
    · exact ⟨0, by omega, by simpa using he⟩
    · obtain ⟨t, ht, hq⟩ := ih (j + 1) e he
      exact ⟨t + 1, by omega, by rw [hq]; congr 2 <;> omega⟩

theorem mem_flushList {α : Type} (q : ℕ → ℚ) (b : ℕ → List α) :
    ∀ (k j : ℕ) (e : ℚ × List α), e ∈ flushList q b j k →
      ∃ t, t < k ∧ e = (q (j + t), b (j + t)) := by
  intro k
  induction k with
  | zero => intro j e he; simp [flushList] at he
  | succ k' ih =>
    intro j e he
    rw [flushList] at he
    rcases List.mem_cons.mp he with he | he
    · exact ⟨0, by omega, by simpa using he⟩
    · obtain ⟨t, ht, hq⟩ := ih (j + 1) e he
      exact ⟨t + 1, by omega, by rw [hq]; congr 2 <;> omega⟩

/-- Ingesting a single complete position group (angle 0, run 0): the
final flush alone produces the dataset, with no error. -/
theorem read_data_group {α : Type} (n : ℕ) (z0 : α) (pos : ℚ) (g : ℕ → α)
    (hn : 2 ≤ n) :
    read_data n z0 (groupRows 0 0 pos g n) =
      ([(0, [(0, [(pos, bufOf z0 g n)])])], none) := by
  unfold read_data
  rw [rrun_group_init n z0 0 (initState n z0) 0 0 pos g hn rfl rfl rfl rfl rfl]
  simp [finalFlush, initState, dinsert]

/-- Ingesting a single complete position group followed by a malformed
row: ingestion stops at the malformed row (everything after it is
ignored), the error report cites 1-based line `n+1` and the raw row, and
the final flush still recovers the complete group. -/
theorem read_data_group_bad {α : Type} (n : ℕ) (z0 : α) (pos : ℚ) (g : ℕ → α)
    (raw : String) (rest : List (Row α)) (hn : 2 ≤ n) :
    read_data n z0 (groupRows 0 0 pos g n ++ Row.bad raw :: rest) =
      ([(0, [(0, [(pos, bufOf z0 g n)])])], some (n + 1, raw)) := by
  unfold read_data
  rw [rrun_append]
  rw [rrun_group_init n z0 0 (initState n z0) 0 0 pos g hn rfl rfl rfl rfl rfl]
  rw [rrun_cons _ _ _ _ _ _ rfl]
  have hlen : (groupRows (0 : ℤ) (0 : ℤ) pos g n).length = n := grAux_length 0 0 pos g n 0
  rw [rrun_stop _ _ _ _ _ (by simp [rstep])]
  simp [rstep, finalFlush, initState, dinsert, hlen]

theorem replicate_set_self {α : Type} (z0 : α) :
    ∀ (n a : ℕ), (List.replicate n z0).set a z0 = List.replicate n z0 := by
  intro n
  induction n with
  | zero => intro a; rfl
  | succ n' ih =>
    intro a
    cases a with
    | zero => simp [List.replicate_succ]
    | succ a' => simp [List.replicate_succ, ih a']

theorem writeFrom_const {α : Type} (z0 : α) (n : ℕ) :
    ∀ (k a : ℕ), writeFrom (List.replicate n z0) (fun _ => z0) a k =
      List.replicate n z0 := by
  intro k
  induction k with
  | zero => intro a; rfl
  | succ k' ih =>
    intro a
    rw [writeFrom]
    simp only [replicate_set_self]
    exact ih (a + 1)

/-- Writing only zero payloads into the zero buffer leaves the zero
buffer: the complete all-zeros group parses to the untouched
`np.zeros` buffer. -/
theorem bufOf_const {α : Type} (z0 : α) (n : ℕ) :
    bufOf z0 (fun _ => z0) n = List.replicate n z0 := by
  rw [bufOf, writeFrom_const]

/-- Ingesting a single complete position group followed by a row whose
header fields parse but whose coordinate field is malformed: during the
bad row the `_ptx` flush first stores the completed group under its
position key and resets the buffer, then the exception stops ingestion
(anything after is ignored) with the report citing line `n+1` and the
raw row — and the unconditional final flush, still holding the old
`_bpos`, overwrites the completed group's entry with the fresh zero
buffer.  The group's measured points are lost from the returned
dataset. -/
theorem read_data_group_badXyz {α : Type} (n : ℕ) (z0 : α) (pos : ℚ) (g : ℕ → α)
    (raw : String) (rest : List (Row α)) (hn : 2 ≤ n) :
    read_data n z0 (groupRows 0 0 pos g n ++ Row.badXyz raw :: rest) =
      ([(0, [(0, [(pos, List.replicate n z0)])])], some (n + 1, raw)) := by
  unfold read_data
  rw [rrun_append]
  rw [rrun_group_init n z0 0 (initState n z0) 0 0 pos g hn rfl rfl rfl rfl rfl]
  rw [rrun_cons _ _ _ _ _ _ rfl]
  have hlen : (groupRows (0 : ℤ) (0 : ℤ) pos g n).length = n := grAux_length 0 0 pos g n 0
  rw [rrun_stop _ _ _ _ _ (by simp [rstep])]
  simp [rstep, finalFlush, initState, dinsert, hlen]

theorem rrun_comments {α : Type} (n : ℕ) (z0 : α) :
    ∀ (rows : List (Row α)) (i : ℕ) (s : RState α),
    (∀ r ∈ rows, r = Row.comment) → rrun n z0 i s rows = s := by
  intro rows
  induction rows with
  | nil => intro i s _; rfl
  | cons r t ih =>
    intro i s h
    have hr : r = Row.comment := h r (List.mem_cons_self r t)
    subst hr
    by_cases he : s.err.isSome
    · exact rrun_stop n z0 i s _ he
    · rw [rrun_cons n z0 i s _ _ (Option.not_isSome_iff_eq_none.mp he)]
      exact ih (i + 1) s (fun r' hr' => h r' (List.mem_cons_of_mem _ hr'))

theorem gdLoop_no_match {α : Type} (pos : Option ℚ) :
    ∀ (l acc : List (ℚ × List α)), (∀ e ∈ l, some e.1 ≠ pos) →
    gdLoop pos acc l = gdLoop none acc l := by
  intro l
  induction l with
  | nil => intro acc _; rfl
  | cons x t ih =>
    intro acc h
    obtain ⟨p, pts⟩ := x
    have hp : some p ≠ pos := h (p, pts) (List.mem_cons_self _ t)
    rw [gdLoop, gdLoop, if_neg hp, if_neg (by simp)]
    exact ih _ (fun e he => h e (List.mem_cons_of_mem _ he))

theorem gdLoop_none_perm {α : Type} :
    ∀ (l acc : List (ℚ × List α)), List.Sorted keyLe acc →
    ∃ res, gdLoop none acc l = .items res ∧ List.Perm res (acc ++ l) ∧
      List.Sorted keyLe res := by
  intro l
  induction l with
  | nil => intro acc hs; exact ⟨acc, rfl, by simp, hs⟩
  | cons x t ih =>
    intro acc hs
    obtain ⟨p, pts⟩ := x
    rw [gdLoop, if_neg (by simp)]
    obtain ⟨res, heq, hperm, hsort⟩ :=
      ih (List.insertionSort keyLe (acc ++ [(p, pts)])) (List.sorted_insertionSort _ _)
    refine ⟨res, heq, hperm.trans ?_, hsort⟩
    have h1 := (List.perm_insertionSort keyLe (acc ++ [(p, pts)])).append_right t
    simpa using h1

/-- C2: ingesting a well-formed synthetic stream with known boundaries
(`A ≥ 1` angles, `R ≥ 1` runs per angle, `P ≥ 1` positions per run with
pairwise-distinct position values, `n` point indices `0..n-1` in order per
position, where `n ≥ 2` as in the configured 12- or 13-point formats)
produces exactly the expected dataset with no error, and in particular its
shape — number of angles, runs per angle, positions per run, points per
position — equals that of the construction. -/
theorem C2_roundtrip_shape {α : Type} (z0 : α) (q : ℕ → ℕ → ℕ → ℚ)
    (g : ℕ → ℕ → ℕ → ℕ → α) (A R P n : ℕ)
    (hA : 1 ≤ A) (hR : 1 ≤ R) (hP : 1 ≤ P) (hn : 2 ≤ n)
    (hq : ∀ a r i1 i2, a < A → r < R → i1 < P → i2 < P →
      q a r i1 = q a r i2 → i1 = i2) :
    read_data n z0 (streamRows q g A R P n) = (angsFull z0 q g A R P n, none) ∧
    (read_data n z0 (streamRows q g A R P n)).1.length = A ∧
    ∀ e ∈ (read_data n z0 (streamRows q g A R P n)).1, e.2.length = R ∧
      ∀ e2 ∈ e.2, e2.2.length = P ∧ ∀ e3 ∈ e2.2, e3.2.length = n := by
  obtain ⟨w, rfl⟩ : ∃ w, A = w + 1 := ⟨A - 1, by omega⟩
  obtain ⟨u, rfl⟩ : ∃ u, R = u + 1 := ⟨R - 1, by omega⟩
  obtain ⟨p, rfl⟩ : ∃ p, P = p + 1 := ⟨P - 1, by omega⟩
  have hmain := read_data_stream n z0 q g p u w hn
    (fun a r t1 t2 h1 h2 h3 h4 => hq a r t1 t2 (by omega) (by omega) (by omega)
      (by omega))
  refine ⟨hmain, ?_, ?_⟩
  · rw [hmain]
    exact zList_length _ _ _
  · rw [hmain]
    intro e he
    simp only at he
    obtain ⟨t, ht, rfl⟩ := mem_zList _ _ _ _ he
    refine ⟨zList_length _ _ _, ?_⟩
    intro e2 he2
    simp only [runsFull] at he2
    obtain ⟨t2, ht2, rfl⟩ := mem_zList _ _ _ _ he2
    refine ⟨by simpa [aposFull] using flushList_length _ _ (p + 1) 0, ?_⟩
    intro e3 he3
    simp only [aposFull] at he3
    obtain ⟨t3, ht3, rfl⟩ := mem_flushList _ _ _ _ _ he3
    exact bufOf_length _ _ _

/-- Witness for C2 on the concrete stream with 1 angle, 1 run, 2
positions, 2 points per position. -/
theorem C2_roundtrip_shape_witness :
    ((1 : ℕ) ≤ 1 ∧ (1 : ℕ) ≤ 1 ∧ (1 : ℕ) ≤ 2 ∧ (2 : ℕ) ≤ 2 ∧
      (∀ a r i1 i2 : ℕ, a < 1 → r < 1 → i1 < 2 → i2 < 2 →
        qW a r i1 = qW a r i2 → i1 = i2)) ∧
    (read_data 2 (0 : ℕ) (streamRows qW gW 1 1 2 2) =
        (angsFull 0 qW gW 1 1 2 2, none) ∧
      (read_data 2 (0 : ℕ) (streamRows qW gW 1 1 2 2)).1.length = 1 ∧
      ∀ e ∈ (read_data 2 (0 : ℕ) (streamRows qW gW 1 1 2 2)).1, e.2.length = 1 ∧
        ∀ e2 ∈ e.2, e2.2.length = 2 ∧ ∀ e3 ∈ e2.2, e3.2.length = 2) := by
  have hq : ∀ a r i1 i2 : ℕ, a < 1 → r < 1 → i1 < 2 → i2 < 2 →
      qW a r i1 = qW a r i2 → i1 = i2 :=
    fun _ _ _ _ _ _ _ _ h => Nat.cast_injective h
  exact ⟨⟨le_refl 1, le_refl 1, by omega, le_refl 2, hq⟩,
    C2_roundtrip_shape 0 qW gW 1 1 2 2 (le_refl 1) (le_refl 1) (by omega)
      (le_refl 2) hq⟩

/-- C3 counterexample: a valid first group (two points `[1, 2]` at
position 5) followed by a malformed data row whose header fields parse
but whose coordinate field is non-numeric.  Ingestion does stop at the
row with the correct report, but the returned dataset maps position 5 to
the zero buffer `[0, 0]`, not to the group's points `[1, 2]` (the bad
row's `_ptx` flush stored the group, then the unconditional final flush
overwrote that entry with the freshly reset buffer under the unchanged
`_bpos`).  So the dataset does not contain the group completed before
the bad row, refuting the claim as stated over all malformed data
rows. -/
theorem C3_counterexample :
    read_data 2 (0 : ℕ) (groupRows 0 0 5 (fun k => k + 1) 2 ++
        [Row.badXyz "0, 0, 0, 7.5, 0, abc, 1.0, 2.0"]) =
      ([(0, [(0, [(5, [0, 0])])])],
        some (3, "0, 0, 0, 7.5, 0, abc, 1.0, 2.0")) ∧
    bufOf (0 : ℕ) (fun k => k + 1) 2 = [1, 2] :=
  ⟨rfl, rfl⟩

/-- C3 (amended): a valid first group (angle 0, run 0, `n ≥ 2` points)
followed by a data row that fails while its integer/float header fields
(collection, angle, run, actuator position, point index) are parsed —
for example a non-numeric actuator-position field, the claim's own
example: ingestion stops at that row (any further rows are ignored),
nothing is raised (the result is an ordinary value), the error report
cites the 1-based line number `n+1` and the raw row, and the returned
dataset contains exactly the one group completed before the bad row. -/
theorem C3_malformed_row {α : Type} (n : ℕ) (z0 : α) (pos : ℚ) (g : ℕ → α)
    (raw : String) (rest : List (Row α)) (hn : 2 ≤ n) :
    read_data n z0 (groupRows 0 0 pos g n ++ Row.bad raw :: rest) =
      ([(0, [(0, [(pos, bufOf z0 g n)])])], some (n + 1, raw)) :=
  read_data_group_bad n z0 pos g raw rest hn

/-- Witness for C3 on a concrete two-point group followed by a malformed
row. -/
theorem C3_malformed_row_witness :
    (2 : ℕ) ≤ 2 ∧
    read_data 2 (0 : ℕ) (groupRows 0 0 5 (fun k => k + 1) 2 ++ Row.bad "x" :: []) =
      ([(0, [(0, [(5, bufOf 0 (fun k => k + 1) 2)])])], some (2 + 1, "x")) :=
  ⟨le_refl 2, C3_malformed_row 2 0 5 (fun k => k + 1) "x" [] (le_refl 2)⟩

/-- C8 (amended): when ingestion stops early at a malformed row, the
truncation is reported only through the printed error message (line
number and raw row, the second component of the model); the returned
dataset itself carries no flag or truncation marker and is identical to
the dataset parsed from a complete, error-free stream, so the caller
cannot tell from the returned value that ingestion was truncated.  For a
malformed row failing header-field parsing, that complete stream is the
same stream without the malformed tail; for a malformed row failing at a
coordinate field, it is the one-group stream whose points all carry the
zero payload (the final flush having replaced the completed group's
points with the fresh zero buffer). -/
theorem C8_truncation_report {α : Type} (n : ℕ) (z0 : α) (pos : ℚ) (g : ℕ → α)
    (raw : String) (rest : List (Row α)) (hn : 2 ≤ n) :
    ((read_data n z0 (groupRows 0 0 pos g n ++ Row.bad raw :: rest)).1 =
      (read_data n z0 (groupRows 0 0 pos g n)).1 ∧
     (read_data n z0 (groupRows 0 0 pos g n ++ Row.bad raw :: rest)).2 =
      some (n + 1, raw) ∧
     (read_data n z0 (groupRows 0 0 pos g n)).2 = none) ∧
    ((read_data n z0 (groupRows 0 0 pos g n ++ Row.badXyz raw :: rest)).1 =
      (read_data n z0 (groupRows 0 0 pos (fun _ => z0) n)).1 ∧
     (read_data n z0 (groupRows 0 0 pos g n ++ Row.badXyz raw :: rest)).2 =
      some (n + 1, raw) ∧
     (read_data n z0 (groupRows 0 0 pos (fun _ => z0) n)).2 = none) := by
  rw [read_data_group_bad n z0 pos g raw rest hn, read_data_group n z0 pos g hn,
    read_data_group_badXyz n z0 pos g raw rest hn,
    read_data_group n z0 pos (fun _ => z0) hn, bufOf_const]
  exact ⟨⟨rfl, rfl, rfl⟩, ⟨rfl, rfl, rfl⟩⟩

/-- Witness for the amended C8 statement on a concrete stream, in both
malformed-row classes. -/
theorem C8_truncation_report_witness :
    (2 : ℕ) ≤ 2 ∧
    (((read_data 2 (0 : ℕ) (groupRows 0 0 5 (fun k => k + 1) 2 ++
        Row.bad "bad" :: [])).1 =
      (read_data 2 (0 : ℕ) (groupRows 0 0 5 (fun k => k + 1) 2)).1 ∧
     (read_data 2 (0 : ℕ) (groupRows 0 0 5 (fun k => k + 1) 2 ++
        Row.bad "bad" :: [])).2 = some (2 + 1, "bad") ∧
     (read_data 2 (0 : ℕ) (groupRows 0 0 5 (fun k => k + 1) 2)).2 = none) ∧
    ((read_data 2 (0 : ℕ) (groupRows 0 0 5 (fun k => k + 1) 2 ++
        Row.badXyz "bad" :: [])).1 =
      (read_data 2 (0 : ℕ) (groupRows 0 0 5 (fun _ => 0) 2)).1 ∧
     (read_data 2 (0 : ℕ) (groupRows 0 0 5 (fun k => k + 1) 2 ++
        Row.badXyz "bad" :: [])).2 = some (2 + 1, "bad") ∧
     (read_data 2 (0 : ℕ) (groupRows 0 0 5 (fun _ => 0) 2)).2 = none)) :=
  ⟨le_refl 2, C8_truncation_report 2 0 5 (fun k => k + 1) "bad" [] (le_refl 2)⟩

/-- C8 counterexample: on the concrete truncated stream (one valid group,
then a malformed row), the dataset returned by `read_data` — the only
value the Python function returns — is equal to the dataset returned for
the complete one-group stream, even though ingestion stopped early (the
error report exists only on standard output).  So no flag or truncation
marker is attached to the returned Dataset, and the caller cannot tell
the two apart from the returned result. -/
theorem C8_counterexample :
    (read_data 2 (0 : ℕ)
      (groupRows 0 0 5 (fun k => k + 1) 2 ++ [Row.bad "bad"])).1 =
      (read_data 2 (0 : ℕ) (groupRows 0 0 5 (fun k => k + 1) 2)).1 ∧
    (read_data 2 (0 : ℕ)
      (groupRows 0 0 5 (fun k => k + 1) 2 ++ [Row.bad "bad"])).2 =
      some (3, "bad") :=
  ⟨rfl, rfl⟩

/-- C9: on a stream with no data rows (empty, or comments only), the
unconditional final flush still fires: the result is the non-empty
dataset `{0: {0: {'0': zeros-buffer}}}` and no error. -/
theorem C9_comments_only {α : Type} (n : ℕ) (z0 : α) (rows : List (Row α))
    (h : ∀ r ∈ rows, r = Row.comment) :
    read_data n z0 rows = ([(0, [(0, [(0, List.replicate n z0)])])], none) := by
  unfold read_data
  rw [rrun_comments n z0 rows 0 _ h]
  simp [finalFlush, initState, dinsert]

/-- Witness for C9 on a two-comment stream. -/
theorem C9_comments_only_witness :
    (∀ r ∈ [Row.comment, Row.comment], r = (Row.comment : Row ℕ)) ∧
    read_data 3 (0 : ℕ) [Row.comment, Row.comment] =
      ([(0, [(0, [(0, List.replicate 3 0)])])], none) := by
  have h : ∀ r ∈ [Row.comment, Row.comment], r = (Row.comment : Row ℕ) := by
    intro r hr
    simp only [List.mem_cons, List.not_mem_nil, or_false] at hr
    rcases hr with h | h <;> exact h
  exact ⟨h, C9_comments_only 3 0 _ h⟩

/-- C10 (amended): for a dataset containing the requested `(angle, run)`
pair whose position map is non-empty (with pairwise-distinct position
values, as produced by the string-keyed dictionaries of `read_data`), and
a `pos` argument matching none of the stored position values, `get_dats`
does not fail and returns the complete non-empty list of
`(position, points)` pairs sorted in ascending position order — the same
result as calling it with `pos = None`. -/
theorem C10_get_dats_no_match {α : Type}
    (dats : List (ℤ × List (ℤ × List (ℚ × List α)))) (ang run : ℤ)
    (pos : Option ℚ) (rdict : List (ℤ × List (ℚ × List α)))
    (d : List (ℚ × List α))
    (h1 : dget ang dats = some rdict) (h2 : dget run rdict = some d)
    (hne : d ≠ []) (_hnd : (d.map Prod.fst).Nodup)
    (hpos : ∀ e ∈ d, some e.1 ≠ pos) :
    ∃ res, get_dats dats ang run pos = .ok (.items res) ∧ res ≠ [] ∧
      List.Perm res d ∧ List.Sorted keyLe res ∧
      get_dats dats ang run none = .ok (.items res) := by
  obtain ⟨res, heq, hperm, hsort⟩ := gdLoop_none_perm d [] List.sorted_nil
  refine ⟨res, ?_, ?_, by simpa using hperm, hsort, ?_⟩
  · unfold get_dats
    simp only [h1, h2]
    rw [gdLoop_no_match pos d [] hpos, heq]
  · intro hres
    subst hres
    exact hne (by simpa using hperm.symm.eq_nil)
  · unfold get_dats
    simp only [h1, h2]
    rw [heq]

/-- Witness for the amended C10 statement at a concrete dataset and a
`pos` argument matching no stored position. -/
theorem C10_get_dats_no_match_witness :
    (dget (0 : ℤ) [((0 : ℤ), [((0 : ℤ), dW)])] = some [((0 : ℤ), dW)] ∧
     dget (0 : ℤ) [((0 : ℤ), dW)] = some dW ∧
     dW ≠ [] ∧ (dW.map Prod.fst).Nodup ∧
     (∀ e ∈ dW, some e.1 ≠ some (9 : ℚ))) ∧
    (∃ res, get_dats [((0 : ℤ), [((0 : ℤ), dW)])] 0 0 (some 9) =
        .ok (.items res) ∧ res ≠ [] ∧ List.Perm res dW ∧
      List.Sorted keyLe res ∧
      get_dats [((0 : ℤ), [((0 : ℤ), dW)])] 0 0 none = .ok (.items res)) := by
  refine ⟨⟨rfl, rfl, by decide, by decide, by decide⟩, ?_⟩
  exact C10_get_dats_no_match _ 0 0 (some 9) _ dW rfl rfl (by decide) (by decide)
    (by decide)

/-- C10 counterexample: a dataset that does contain the requested
`(angle, run)` pair but with an empty position map; `get_dats` succeeds
and returns the empty items list, so as stated ("does not return an empty
result") the claim fails on this input. -/
theorem C10_counterexample :
    dget (0 : ℤ) [((0 : ℤ), [((0 : ℤ), ([] : List (ℚ × List ℕ)))])] =
      some [((0 : ℤ), ([] : List (ℚ × List ℕ)))] ∧
    get_dats [((0 : ℤ), [((0 : ℤ), ([] : List (ℚ × List ℕ)))])] 0 0 (some 5) =
      .ok (.items []) :=
  ⟨rfl, rfl⟩
